import Mathlib

/-!
# Verification of the rust-bolts wire codec

A shallow embedding of the BOLT-style codec in `src/bigsize.rs`, `src/ser.rs`
and `src/tlv.rs`: the BigSize variable-length integer, the primitive
big-endian readers, the TLV record and stream decoders, and the value
decoders for the recognized TLV types.

Bytes are modelled as `Nat` values below 256; a byte source is a
`List Nat`.  Every reader returns its `Except` result together with the
remaining input; following `std::io::Read::read_exact` on a cursor, a
failing exact read consumes everything that was available, which is what
lets the stream decoder's read-tracking distinguish clean EOF from
truncation by comparing lengths.
-/

deriving instance DecidableEq for Except

namespace RustBolts

/-- `std::io::ErrorKind`: only `InvalidData` is ever constructed by this
crate (in the BigSize canonicality checks). -/
inductive IOErrorKind where
  | invalidData
deriving DecidableEq, Repr

/-- `DecodeError` from `src/ser.rs`. -/
inductive DecodeError where
  | io : IOErrorKind → DecodeError
  | shortRead
  | invalidData
  | unknownRequiredFeature
deriving DecidableEq, Repr

/-- Big-endian interpretation of a byte list (`from_be_bytes` on a
zero-left-padded buffer agrees with this for true bytes). -/
def fromBE (l : List Nat) : Nat :=
  l.foldl (fun acc b => acc * 256 + b) 0

/-- The `n` big-endian bytes of `x` (`to_be_bytes`); only the low
`8*n` bits of `x` are used, matching Rust integer truncating casts. -/
def toBE : Nat → Nat → List Nat
  | 0, _ => []
  | n + 1, x => toBE n (x / 256) ++ [x % 256]

/-- `read_exact` on a list source: return the first `n` bytes, or
`ShortRead` having drained whatever was available (a cursor's position
advances past the bytes it did deliver before hitting EOF). -/
def readExact (n : Nat) (l : List Nat) : Except DecodeError (List Nat) × List Nat :=
  if n ≤ l.length then (.ok (l.take n), l.drop n)
  else (.error .shortRead, [])

/-- The fixed-width big-endian integer readers of `src/ser.rs`
(`u8`/`u16`/`u32`/`u64` are `readU 1/2/4/8`). -/
def readU (n : Nat) (l : List Nat) : Except DecodeError Nat × List Nat :=
  match readExact n l with
  | (.ok bs, rest) => (.ok (fromBE bs), rest)
  | (.error e, rest) => (.error e, rest)

/-- `impl Writeable for BigSize` in `src/bigsize.rs`: the canonical
encoding of a `u64` value. -/
def BigSize.write (x : Nat) : List Nat :=
  if x < 0xfd then toBE 1 x
  else if x < 0x10000 then 0xfd :: toBE 2 x
  else if x < 0x100000000 then 0xfe :: toBE 4 x
  else 0xff :: toBE 8 x

/-- `impl Readable for BigSize` in `src/bigsize.rs`: canonical decode,
rejecting non-minimal encodings with `DecodeError::Io(InvalidData)`. -/
def BigSize.read (l : List Nat) : Except DecodeError Nat × List Nat :=
  match readU 1 l with
  | (.error e, rest) => (.error e, rest)
  | (.ok size, rest) =>
    if size = 0xfd then
      match readU 2 rest with
      | (.error e, r) => (.error e, r)
      | (.ok x, r) =>
        if x < 0xfd then (.error (.io .invalidData), r) else (.ok x, r)
    else if size = 0xfe then
      match readU 4 rest with
      | (.error e, r) => (.error e, r)
      | (.ok x, r) =>
        if x < 0x10000 then (.error (.io .invalidData), r) else (.ok x, r)
    else if size = 0xff then
      match readU 8 rest with
      | (.error e, r) => (.error e, r)
      | (.ok x, r) =>
        if x < 0x100000000 then (.error (.io .invalidData), r) else (.ok x, r)
    else (.ok size, rest)

/-! ## Arithmetic facts about the byte conversions -/

theorem toBE_length (n x : Nat) : (toBE n x).length = n := by
  induction n generalizing x with
  | zero => rfl
  | succ m ih => simp [toBE, ih]

theorem fromBE_append_single (l : List Nat) (b : Nat) :
    fromBE (l ++ [b]) = fromBE l * 256 + b := by
  simp [fromBE, List.foldl_append]

theorem fromBE_toBE (n x : Nat) : fromBE (toBE n x) = x % 256 ^ n := by
  induction n generalizing x with
  | zero => simp [toBE, fromBE, Nat.mod_one]
  | succ m ih =>
    rw [toBE, fromBE_append_single, ih]
    have h1 : x / 256 % 256 ^ m = x % (256 * 256 ^ m) / 256 :=
      (Nat.mod_mul_right_div_self x 256 (256 ^ m)).symm
    have h2 : x % 256 ^ (m + 1) % 256 = x % 256 := by
      apply Nat.mod_mod_of_dvd
      exact dvd_pow_self 256 (Nat.succ_ne_zero m)
    have h3 : 256 ^ (m + 1) = 256 * 256 ^ m := by ring
    have h4 := Nat.div_add_mod (x % 256 ^ (m + 1)) 256
    rw [h1, ← h3, h2] at *
    omega

theorem fromBE_toBE_of_lt {n x : Nat} (h : x < 256 ^ n) :
    fromBE (toBE n x) = x := by
  rw [fromBE_toBE, Nat.mod_eq_of_lt h]

theorem toBE_mem_lt (n x : Nat) : ∀ b ∈ toBE n x, b < 256 := by
  induction n generalizing x with
  | zero => simp [toBE]
  | succ m ih =>
    intro b hb
    rw [toBE, List.mem_append] at hb
    rcases hb with hb | hb
    · exact ih _ b hb
    · simp only [List.mem_singleton] at hb
      subst hb
      exact Nat.mod_lt _ (by omega)

theorem fromBE_lt (l : List Nat) (h : ∀ b ∈ l, b < 256) :
    fromBE l < 256 ^ l.length := by
  induction l using List.reverseRecOn with
  | nil => simp [fromBE]
  | append_singleton l' b ih =>
    rw [fromBE_append_single]
    have hb : b < 256 := h b (by simp)
    have hl : fromBE l' < 256 ^ l'.length := by
      apply ih
      intro c hc
      exact h c (by simp [hc])
    have : 256 ^ (l' ++ [b]).length = 256 ^ l'.length * 256 := by
      simp [List.length_append]
      ring
    rw [this]
    nlinarith

theorem toBE_fromBE (l : List Nat) (h : ∀ b ∈ l, b < 256) :
    toBE l.length (fromBE l) = l := by
  induction l using List.reverseRecOn with
  | nil => simp [toBE, fromBE]
  | append_singleton l' b ih =>
    have hb : b < 256 := h b (by simp)
    have hl : ∀ c ∈ l', c < 256 := fun c hc => h c (by simp [hc])
    rw [fromBE_append_single]
    have hlen : (l' ++ [b]).length = l'.length + 1 := by simp
    rw [hlen, toBE]
    have hdiv : (fromBE l' * 256 + b) / 256 = fromBE l' := by
      omega
    have hmod : (fromBE l' * 256 + b) % 256 = b := by
      omega
    rw [hdiv, hmod, ih hl]

/-! ## Reader composition facts -/

theorem readExact_append (l rest : List Nat) :
    readExact l.length (l ++ rest) = (.ok l, rest) := by
  simp [readExact, List.take_left, List.drop_left]

theorem readU_toBE (n x : Nat) (rest : List Nat) :
    readU n (toBE n x ++ rest) = (.ok (x % 256 ^ n), rest) := by
  have h := readExact_append (toBE n x) rest
  rw [toBE_length] at h
  rw [readU, h]
  simp [fromBE_toBE]

theorem readExact_rest_le (n : Nat) (l : List Nat) :
    (readExact n l).2.length ≤ l.length := by
  rw [readExact]
  split <;> simp

theorem readExact_ok_len {n : Nat} {l bs rest : List Nat}
    (h : readExact n l = (.ok bs, rest)) :
    rest.length + n = l.length ∧ bs = l.take n ∧ rest = l.drop n := by
  rw [readExact] at h
  split at h
  · rename_i hn
    simp only [Prod.mk.injEq, Except.ok.injEq] at h
    obtain ⟨hbs, hrest⟩ := h
    subst hbs
    subst hrest
    refine ⟨?_, rfl, rfl⟩
    rw [List.length_drop]
    omega
  · simp at h

theorem readU_rest_le (n : Nat) (l : List Nat) :
    (readU n l).2.length ≤ l.length := by
  rw [readU]
  have h := readExact_rest_le n l
  split
  all_goals rename_i heq
  all_goals rw [heq] at h
  all_goals simpa using h

theorem readU_ok_len {n : Nat} {l : List Nat} {x : Nat} {rest : List Nat}
    (h : readU n l = (.ok x, rest)) :
    rest.length + n = l.length := by
  rw [readU] at h
  split at h
  all_goals rename_i heq
  · simp only [Prod.mk.injEq, Except.ok.injEq] at h
    obtain ⟨bs, hbs⟩ : ∃ bs, readExact n l = (.ok bs, rest) := by
      exact ⟨_, by rw [heq, h.2]⟩
    exact (readExact_ok_len hbs).1
  · simp at h

theorem BigSize.read_rest_le (l : List Nat) :
    (BigSize.read l).2.length ≤ l.length := by
  rw [BigSize.read]
  have h1 := readU_rest_le 1 l
  split
  all_goals rename_i heq
  · rw [heq] at h1; simpa using h1
  · rw [heq] at h1
    simp only at h1
    rename_i size rest
    have h2 := readU_rest_le 2 rest
    have h4 := readU_rest_le 4 rest
    have h8 := readU_rest_le 8 rest
    split
    · split
      all_goals rename_i heq2
      · rw [heq2] at h2; simp at h2; simpa using le_trans h2 h1
      · rw [heq2] at h2; simp at h2
        split <;> simpa using le_trans h2 h1
    · split
      · split
        all_goals rename_i heq2
        · rw [heq2] at h4; simp at h4; simpa using le_trans h4 h1
        · rw [heq2] at h4; simp at h4
          split <;> simpa using le_trans h4 h1
      · split
        · split
          all_goals rename_i heq2
          · rw [heq2] at h8; simp at h8; simpa using le_trans h8 h1
          · rw [heq2] at h8; simp at h8
            split <;> simpa using le_trans h8 h1
        · simpa using h1

theorem BigSize.read_ok_lt {l : List Nat} {v : Nat} {rest : List Nat}
    (h : BigSize.read l = (.ok v, rest)) :
    rest.length < l.length := by
  rw [BigSize.read] at h
  split at h
  all_goals rename_i heq
  · simp at h
  · have h1 := readU_ok_len heq
    rename_i size rest1
    have h2 := readU_rest_le 2 rest1
    have h4 := readU_rest_le 4 rest1
    have h8 := readU_rest_le 8 rest1
    split at h
    · split at h
      all_goals rename_i heq2
      · simp at h
      · rw [heq2] at h2; simp at h2
        split at h
        · simp at h
        · simp only [Prod.mk.injEq, Except.ok.injEq] at h
          obtain ⟨hv, hr⟩ := h
          subst hr
          omega
    · split at h
      · split at h
        all_goals rename_i heq2
        · simp at h
        · rw [heq2] at h4; simp at h4
          split at h
          · simp at h
          · simp only [Prod.mk.injEq, Except.ok.injEq] at h
            obtain ⟨hv, hr⟩ := h
            subst hr
            omega
      · split at h
        · split at h
          all_goals rename_i heq2
          · simp at h
          · rw [heq2] at h8; simp at h8
            split at h
            · simp at h
            · simp only [Prod.mk.injEq, Except.ok.injEq] at h
              obtain ⟨hv, hr⟩ := h
              subst hr
              omega
        · simp only [Prod.mk.injEq, Except.ok.injEq] at h
          obtain ⟨hv, hr⟩ := h
          subst hr
          omega

/-! ## BigSize round-trip and canonicality -/

/-- Decoding the canonical encoding of a value below `2^64` returns the
value and consumes exactly the encoded bytes. -/
theorem BigSize.read_write (v : Nat) (hv : v < 2 ^ 64) (rest : List Nat) :
    BigSize.read (BigSize.write v ++ rest) = (.ok v, rest) := by
  have h64 : (2 : Nat) ^ 64 = 256 ^ 8 := by norm_num
  rw [BigSize.write]
  by_cases h1 : v < 0xfd
  · have hm : v % 256 ^ 1 = v := Nat.mod_eq_of_lt (by norm_num; omega)
    rw [if_pos h1]
    simp only [BigSize.read, readU_toBE, hm]
    rw [if_neg (by omega), if_neg (by omega), if_neg (by omega)]
  · rw [if_neg h1]
    by_cases h2 : v < 0x10000
    · have hm : v % 256 ^ 2 = v := Nat.mod_eq_of_lt (by norm_num; omega)
      rw [if_pos h2]
      have hsplit : (0xfd :: toBE 2 v) ++ rest = toBE 1 0xfd ++ (toBE 2 v ++ rest) := by
        simp [toBE]
      rw [hsplit]
      simp only [BigSize.read, readU_toBE, hm]
      norm_num
      intro hcontra
      omega
    · rw [if_neg h2]
      by_cases h3 : v < 0x100000000
      · have hm : v % 256 ^ 4 = v := Nat.mod_eq_of_lt (by norm_num; omega)
        rw [if_pos h3]
        have hsplit : (0xfe :: toBE 4 v) ++ rest = toBE 1 0xfe ++ (toBE 4 v ++ rest) := by
          simp [toBE]
        rw [hsplit]
        simp only [BigSize.read, readU_toBE, hm]
        norm_num
        intro hcontra
        omega
      · have hm : v % 256 ^ 8 = v := Nat.mod_eq_of_lt (by rw [← h64]; omega)
        rw [if_neg h3]
        have hsplit : (0xff :: toBE 8 v) ++ rest = toBE 1 0xff ++ (toBE 8 v ++ rest) := by
          simp [toBE]
        rw [hsplit]
        simp only [BigSize.read, readU_toBE, hm]
        norm_num
        intro hcontra
        omega

/-- A successful fixed-width read of a true byte string consumes exactly
the big-endian encoding of the decoded value. -/
theorem readU_ok_inv {n : Nat} {l : List Nat} {x : Nat} {rest : List Nat}
    (hb : ∀ b ∈ l, b < 256) (h : readU n l = (.ok x, rest)) :
    l = toBE n x ++ rest ∧ x < 256 ^ n := by
  rw [readU] at h
  match h3 : readExact n l with
  | (.error e, rr) => rw [h3] at h; simp at h
  | (.ok bs, rr) =>
    rw [h3] at h
    simp only [Prod.mk.injEq, Except.ok.injEq] at h
    obtain ⟨hx, hrr⟩ := h
    subst hx
    subst hrr
    obtain ⟨hlen, hbs, hrest⟩ := readExact_ok_len h3
    have hbsb : ∀ b ∈ bs, b < 256 := by
      intro b hbmem
      exact hb b (by rw [hbs] at hbmem; exact List.take_subset n l hbmem)
    have hbslen : bs.length = n := by
      rw [hbs, List.length_take]
      omega
    constructor
    · have := toBE_fromBE bs hbsb
      rw [hbslen] at this
      rw [this, hbs, hrest, List.take_append_drop]
    · have := fromBE_lt bs hbsb
      rwa [hbslen] at this

/-- A successful BigSize decode of a true byte string consumes exactly the
canonical encoding of the decoded value: no other byte sequence (in
particular no longer, non-minimal one) is accepted. -/
theorem BigSize.read_canonical {l : List Nat} {v : Nat} {r : List Nat}
    (hb : ∀ b ∈ l, b < 256) (h : BigSize.read l = (.ok v, r)) :
    l = BigSize.write v ++ r ∧ v < 2 ^ 64 := by
  rw [BigSize.read] at h
  match h1 : readU 1 l with
  | (.error e, r1) => rw [h1] at h; simp at h
  | (.ok size, rest1) =>
    rw [h1] at h
    simp only at h
    obtain ⟨hl1, hsize⟩ := readU_ok_inv hb h1
    have hrest1b : ∀ b ∈ rest1, b < 256 := by
      intro b hbmem
      refine hb b ?_
      rw [hl1]
      exact List.mem_append_right _ hbmem
    have hsize256 : size < 256 := by simpa using hsize
    have htoBE1 : toBE 1 size = [size] := by
      simp [toBE, Nat.mod_eq_of_lt hsize256]
    by_cases hfd : size = 0xfd
    · rw [if_pos hfd] at h
      match h2 : readU 2 rest1 with
      | (.error e, r2) => rw [h2] at h; simp at h
      | (.ok x, r2) =>
        rw [h2] at h
        simp only at h
        split at h
        · simp at h
        · rename_i hxge
          simp only [Prod.mk.injEq, Except.ok.injEq] at h
          obtain ⟨hxv, hr⟩ := h
          subst hxv
          subst hr
          obtain ⟨hl2, hx⟩ := readU_ok_inv hrest1b h2
          have hx16 : x < 0x10000 := by norm_num at hx ⊢; omega
          constructor
          · rw [BigSize.write, if_neg (by omega), if_pos hx16]
            rw [hl1, hl2, htoBE1, hfd]
            simp
          · omega
    · rw [if_neg hfd] at h
      by_cases hfe : size = 0xfe
      · rw [if_pos hfe] at h
        match h2 : readU 4 rest1 with
        | (.error e, r2) => rw [h2] at h; simp at h
        | (.ok x, r2) =>
          rw [h2] at h
          simp only at h
          split at h
          · simp at h
          · rename_i hxge
            simp only [Prod.mk.injEq, Except.ok.injEq] at h
            obtain ⟨hxv, hr⟩ := h
            subst hxv
            subst hr
            obtain ⟨hl2, hx⟩ := readU_ok_inv hrest1b h2
            have hx32 : x < 0x100000000 := by norm_num at hx ⊢; omega
            constructor
            · rw [BigSize.write, if_neg (by omega), if_neg (by omega), if_pos hx32]
              rw [hl1, hl2, htoBE1, hfe]
              simp
            · omega
      · rw [if_neg hfe] at h
        by_cases hff : size = 0xff
        · rw [if_pos hff] at h
          match h2 : readU 8 rest1 with
          | (.error e, r2) => rw [h2] at h; simp at h
          | (.ok x, r2) =>
            rw [h2] at h
            simp only at h
            split at h
            · simp at h
            · rename_i hxge
              simp only [Prod.mk.injEq, Except.ok.injEq] at h
              obtain ⟨hxv, hr⟩ := h
              subst hxv
              subst hr
              obtain ⟨hl2, hx⟩ := readU_ok_inv hrest1b h2
              have hx64 : x < 2 ^ 64 := by norm_num at hx ⊢; omega
              constructor
              · rw [BigSize.write, if_neg (by omega), if_neg (by omega),
                  if_neg (by omega)]
                rw [hl1, hl2, htoBE1, hff]
                simp
              · exact hx64
        · rw [if_neg hff] at h
          simp only [Prod.mk.injEq, Except.ok.injEq] at h
          obtain ⟨hsv, hr⟩ := h
          subst hsv
          subst hr
          constructor
          · rw [BigSize.write, if_pos (by omega)]
            rw [hl1, htoBE1]
          · omega

theorem readU_append (n : Nat) (bs rest : List Nat) (h : bs.length = n) :
    readU n (bs ++ rest) = (.ok (fromBE bs), rest) := by
  subst h
  rw [readU, readExact_append]

theorem readU_short (n : Nat) (l : List Nat) (h : l.length < n) :
    readU n l = (.error .shortRead, []) := by
  rw [readU, readExact, if_neg (by omega)]

theorem BigSize.write_length_pos (x : Nat) : 0 < (BigSize.write x).length := by
  rw [BigSize.write]
  split
  · simp [toBE]
  · split
    · simp
    · split <;> simp

/-! ## The secp256k1 public-key model

The `secp256k1` crate is an external collaborator of this repository, so
its compressed-point parsing is modelled from the spec. -/

/-- The secp256k1 field prime. -/
def secpP : Nat := 2 ^ 256 - 2 ^ 32 - 977

/-- Modular exponentiation by repeated squaring, with an explicit fuel
argument bounding the number of halvings of the exponent (correct whenever
`e < 2 ^ fuel`). -/
def powModAux : Nat → Nat → Nat → Nat → Nat
  | 0, _, _, m => 1 % m
  | fuel + 1, b, e, m =>
    if e = 0 then 1 % m
    else
      let r := powModAux fuel (b * b % m) (e / 2) m
      if e % 2 = 1 then r * b % m else r

/-- `b ^ e` modulo `m` for any exponent below `2 ^ 300`. -/
def powMod (b e m : Nat) : Nat := powModAux 300 b e m

/-- Modelled from the spec: a parsed compressed secp256k1 public key
(section 4.5 treats the key as an opaque validated curve point); the tag
byte selects the parity of the y coordinate. -/
structure PublicKey where
  isOdd : Bool
  x : Nat
deriving DecidableEq, Repr

/-- Modelled from the spec: `secp256k1::PublicKey::from_slice` on a
33-byte compressed encoding (the crate is external to this repository).
The tag must be 2 or 3 and the x coordinate must be a field element lying
on the curve `y^2 = x^3 + 7`; the library checks the curve equation by
taking the candidate square root `c ^ ((p+1)/4)` and squaring it back. -/
def PublicKey.from_slice (l : List Nat) : Option PublicKey :=
  if l.length = 33 then
    match l with
    | [] => none
    | tag :: xs =>
      if tag = 2 ∨ tag = 3 then
        let x := fromBE xs
        let c := (x * x * x + 7) % secpP
        let y := powMod c ((secpP + 1) / 4) secpP
        if x < secpP ∧ y * y % secpP = c then some ⟨tag = 3, x⟩ else none
      else none
  else none

/-! ## TLV data model (`src/tlv.rs`) -/

/-- `PointAmount` from `src/tlv.rs`. -/
structure PointAmount where
  point : PublicKey
  amount_msat_1 : Nat
  amount_msat_2 : Nat
deriving DecidableEq, Repr

/-- `Value` from `src/tlv.rs`: the decoded payload of a TLV record. -/
inductive Value where
  | amount : Nat → Value
  | shortChannelId : List Nat → Value
  | pointAmount : PointAmount → Value
  | cltvExpiry : Nat → Value
  | unknown : List Nat → Value
deriving DecidableEq, Repr

/-- `TLVRecord` from `src/tlv.rs`; `record_type` and `length` hold the
numeric values of the decoded BigSizes. -/
structure TLVRecord where
  record_type : Nat
  length : Nat
  value : Option Value
deriving DecidableEq, Repr

/-! ## Value decoders (`src/tlv.rs`) -/

/-- `decode_tlv1!`: the Amount decoder, enforcing minimal big-endian
encoding for each input length from 1 to 8 bytes. -/
def decode_tlv1 (s : List Nat) : Except DecodeError (Option Value) :=
  if s.length = 0 then .error .shortRead
  else if s.length ≤ 8 then
    let val := fromBE s
    if s.length = 1 ∧ val = 0 then .error .invalidData
    else if s.length = 2 ∧ val < 0x0100 then .error .invalidData
    else if s.length = 3 ∧ val < 0x010000 then .error .invalidData
    else if s.length = 4 ∧ val < 0x01000000 then .error .invalidData
    else if s.length = 5 ∧ val < 0x0100000000 then .error .invalidData
    else if s.length = 6 ∧ val < 0x010000000000 then .error .invalidData
    else if s.length = 7 ∧ val < 0x01000000000000 then .error .invalidData
    else if s.length = 8 ∧ val < 0x0100000000000000 then .error .invalidData
    else .ok (some (.amount val))
  else .error .invalidData

/-- `decode_tlv2!`: the ShortChannelId decoder; `try_into` to `[u8; 8]`
fails (as `ShortRead`) unless exactly 8 bytes remain after the
too-long check. -/
def decode_tlv2 (s : List Nat) : Except DecodeError (Option Value) :=
  if s.length > 8 then .error .invalidData
  else if s.length = 8 then .ok (some (.shortChannelId s))
  else .error .shortRead

/-- `PointAmount::new`: exactly 49 bytes, a compressed public key
followed by two big-endian u64 amounts. -/
def PointAmount.new (s : List Nat) : Except DecodeError PointAmount :=
  if s.length < 49 then .error .shortRead
  else if s.length > 49 then .error .invalidData
  else
    match PublicKey.from_slice (s.take 33) with
    | none => .error .invalidData
    | some point =>
      .ok ⟨point, fromBE ((s.drop 33).take 8), fromBE ((s.drop 41).take 8)⟩

/-- `decode_tlv3!`: wraps `PointAmount::new`. -/
def decode_tlv3 (s : List Nat) : Except DecodeError (Option Value) :=
  match PointAmount.new s with
  | .ok pa => .ok (some (.pointAmount pa))
  | .error e => .error e

/-- `decode_tlv4!`: the CLTVExpiry decoder, exactly 2 bytes as a
big-endian u16. -/
def decode_tlv4 (s : List Nat) : Except DecodeError (Option Value) :=
  if s.length < 2 then .error .shortRead
  else if s.length > 2 then .error .invalidData
  else .ok (some (.cltvExpiry (fromBE s)))

/-- The dispatch on `record_type.0` inside `TLVRecord::read`. -/
def dispatchValue (t : Nat) (v : List Nat) : Except DecodeError (Option Value) :=
  if t = 1 then decode_tlv1 v
  else if t = 2 then decode_tlv2 v
  else if t = 3 then decode_tlv3 v
  else if t = 254 then decode_tlv4 v
  else if t % 2 = 0 then .error .unknownRequiredFeature
  else .ok (some (.unknown v))

/-- `impl Readable for TLVRecord`: BigSize type, BigSize length, exactly
`length` raw bytes, then the per-type value decoder; a `ShortRead` from
the value decoder is forgiven only for a zero-length type-1 record, which
is kept with an absent value. -/
def TLVRecord.read (l : List Nat) : Except DecodeError TLVRecord × List Nat :=
  match BigSize.read l with
  | (.error e, rest) => (.error e, rest)
  | (.ok record_type, rest1) =>
    match BigSize.read rest1 with
    | (.error e, rest) => (.error e, rest)
    | (.ok length, rest2) =>
      match readExact length rest2 with
      | (.error e, rest) => (.error e, rest)
      | (.ok v, rest3) =>
        match dispatchValue record_type v with
        | .error .shortRead =>
          if length = 0 ∧ record_type = 1
          then (.ok ⟨record_type, length, none⟩, rest3)
          else (.error .shortRead, rest3)
        | .error e => (.error e, rest3)
        | .ok value => (.ok ⟨record_type, length, value⟩, rest3)

/-- The decode loop of `impl Readable for TLVStream`, with a fuel
argument standing in for the source `loop`; every successful record read
consumes at least one byte, so fuel `l.length + 1` never runs out (the
fuel-exhausted result is arbitrary and unreachable from `TLVStream.read`).
A record attempt that fails `ShortRead` without consuming a byte — the
tracking reader saw nothing — is the clean end of the stream; consuming
even one byte first makes it a real truncation.  A record whose type is
not above the previous record type fails the stream with `InvalidData`. -/
def TLVStream.readLoop : Nat → List TLVRecord → List Nat →
    Except DecodeError (List TLVRecord) × List Nat
  | 0, _, l => (.error .shortRead, l)
  | fuel + 1, acc, l =>
    match TLVRecord.read l with
    | (.error .shortRead, rest) =>
      if rest.length = l.length then (.ok acc, rest)
      else (.error .shortRead, rest)
    | (.error e, rest) => (.error e, rest)
    | (.ok r, rest) =>
      match acc.getLast? with
      | some prev =>
        if r.record_type ≤ prev.record_type then (.error .invalidData, rest)
        else TLVStream.readLoop fuel (acc ++ [r]) rest
      | none => TLVStream.readLoop fuel (acc ++ [r]) rest

/-- `impl Readable for TLVStream`. -/
def TLVStream.read (l : List Nat) : Except DecodeError (List TLVRecord) × List Nat :=
  TLVStream.readLoop (l.length + 1) [] l

/-! ## Canonical rendering

`fmt::Display for TLVRecord` skips Unknown records and otherwise prints
the hex of the BigSize-encoded type and length followed by the value in
`2 * length` hex digits.  The `Writeable::write_fmt` implementation for
`BigSize` is not part of this snapshot (only its call sites are), so the
hex text is modelled from the spec as the byte string it spells. -/

/-- Modelled from the spec: the canonical hex rendering of a decoded
value, as bytes (section 6: `BigSize(type) ‖ BigSize(length) ‖ raw
bytes`); `{:01$x}` with width `2*length` pads a number to `length`
big-endian bytes. -/
def Value.renderBytes (len : Nat) : Value → List Nat
  | .amount x => toBE len x
  | .shortChannelId b => b
  | .pointAmount pa =>
    (if pa.point.isOdd then 3 else 2) :: toBE 32 pa.point.x
      ++ toBE 8 pa.amount_msat_1 ++ toBE 8 pa.amount_msat_2
  | .cltvExpiry x => toBE len x
  | .unknown _ => []

/-- Modelled from the spec: `fmt::Display for TLVRecord` — Unknown
records render as nothing; other records render their BigSize type and
length followed by the value bytes (an absent value contributes
nothing). -/
def TLVRecord.render (r : TLVRecord) : List Nat :=
  match r.value with
  | some (.unknown _) => []
  | some v => BigSize.write r.record_type ++ BigSize.write r.length
      ++ Value.renderBytes r.length v
  | none => BigSize.write r.record_type ++ BigSize.write r.length

/-- Modelled from the spec: `fmt::Display for TLVStream` concatenates
the renderings of its records. -/
def TLVStream.render (recs : List TLVRecord) : List Nat :=
  (recs.map TLVRecord.render).flatten

/-! ## Claims -/

/-- C9: BigSize encode produces exactly the layout keyed on the value
`x`: one byte holding `x` when `x < 0xfd`; the byte `0xfd` followed by
`x` as 2-byte big-endian when `0xfd ≤ x < 0x10000`; the byte `0xfe`
followed by `x` as 4-byte big-endian when `0x10000 ≤ x < 0x100000000`;
and the byte `0xff` followed by `x` as 8-byte big-endian otherwise. -/
theorem claim_C9 (x : Nat) (hx : x < 2 ^ 64) :
    (x < 0xfd → BigSize.write x = [x]) ∧
    (0xfd ≤ x → x < 0x10000 → BigSize.write x = [0xfd, x / 2 ^ 8, x % 2 ^ 8]) ∧
    (0x10000 ≤ x → x < 0x100000000 →
      BigSize.write x =
        [0xfe, x / 2 ^ 24, x / 2 ^ 16 % 2 ^ 8, x / 2 ^ 8 % 2 ^ 8, x % 2 ^ 8]) ∧
    (0x100000000 ≤ x →
      BigSize.write x =
        [0xff, x / 2 ^ 56, x / 2 ^ 48 % 2 ^ 8, x / 2 ^ 40 % 2 ^ 8, x / 2 ^ 32 % 2 ^ 8,
          x / 2 ^ 24 % 2 ^ 8, x / 2 ^ 16 % 2 ^ 8, x / 2 ^ 8 % 2 ^ 8, x % 2 ^ 8]) := by
  refine ⟨?_, ?_, ?_, ?_⟩
  · intro h
    rw [BigSize.write, if_pos h]
    simp only [toBE, List.nil_append, List.cons.injEq, and_true]
    omega
  · intro hlo hhi
    rw [BigSize.write, if_neg (by omega), if_pos hhi]
    simp only [toBE, List.nil_append, List.cons.injEq, and_true, List.append_assoc,
      List.cons_append]
    norm_num
    omega
  · intro hlo hhi
    rw [BigSize.write, if_neg (by omega), if_neg (by omega), if_pos hhi]
    simp only [toBE, List.nil_append, List.cons.injEq, and_true, List.append_assoc,
      List.cons_append]
    norm_num
    omega
  · intro hlo
    rw [BigSize.write, if_neg (by omega), if_neg (by omega), if_neg (by omega)]
    simp only [toBE, List.nil_append, List.cons.injEq, and_true, List.append_assoc,
      List.cons_append]
    norm_num
    omega

/-- C9 witness at `x = 65536`. -/
theorem claim_C9_witness : BigSize.write 65536 = [0xfe, 0, 1, 0, 0] := by
  have h := (claim_C9 65536 (by norm_num)).2.2.1 (by norm_num) (by norm_num)
  simpa using h

/-- C1: for every u64 value `v`, decoding `encode(BigSize(v))` succeeds,
yields `v` and consumes exactly the encoded bytes; conversely any
accepted byte string is exactly the canonical (shortest) encoding of its
value, and each longer (non-minimal) representation of `v` is rejected
by decode. -/
theorem claim_C1 :
    (∀ v : Nat, v < 2 ^ 64 → ∀ rest : List Nat,
      BigSize.read (BigSize.write v ++ rest) = (.ok v, rest)) ∧
    (∀ (l : List Nat) (v : Nat) (r : List Nat), (∀ b ∈ l, b < 256) →
      BigSize.read l = (.ok v, r) → l = BigSize.write v ++ r) ∧
    (∀ v : Nat, v < 0xfd →
      (BigSize.read (0xfd :: toBE 2 v)).1 = .error (.io .invalidData)) ∧
    (∀ v : Nat, v < 0x10000 →
      (BigSize.read (0xfe :: toBE 4 v)).1 = .error (.io .invalidData)) ∧
    (∀ v : Nat, v < 0x100000000 →
      (BigSize.read (0xff :: toBE 8 v)).1 = .error (.io .invalidData)) := by
  refine ⟨BigSize.read_write, fun l v r hb h => (BigSize.read_canonical hb h).1,
    ?_, ?_, ?_⟩
  · intro v hv
    have hsplit : (0xfd :: toBE 2 v) = toBE 1 0xfd ++ (toBE 2 v ++ []) := by
      simp [toBE]
    have hm : v % 65536 = v := Nat.mod_eq_of_lt (by omega)
    have hread : readU 2 (toBE 2 v) = (.ok v, []) := by
      have h0 := readU_toBE 2 v []
      simpa [hm] using h0
    rw [hsplit]
    simp [BigSize.read, readU_toBE, hread, hv]
  · intro v hv
    have hsplit : (0xfe :: toBE 4 v) = toBE 1 0xfe ++ (toBE 4 v ++ []) := by
      simp [toBE]
    have hm : v % 4294967296 = v := Nat.mod_eq_of_lt (by omega)
    have hread : readU 4 (toBE 4 v) = (.ok v, []) := by
      have h0 := readU_toBE 4 v []
      simpa [hm] using h0
    rw [hsplit]
    simp [BigSize.read, readU_toBE, hread, hv]
  · intro v hv
    have hsplit : (0xff :: toBE 8 v) = toBE 1 0xff ++ (toBE 8 v ++ []) := by
      simp [toBE]
    have hm : v % 18446744073709551616 = v := Nat.mod_eq_of_lt (by omega)
    have hread : readU 8 (toBE 8 v) = (.ok v, []) := by
      have h0 := readU_toBE 8 v []
      simpa [hm] using h0
    rw [hsplit]
    simp [BigSize.read, readU_toBE, hread, hv]

/-- C1 witness at `v = 253` (round trip with a trailing byte, canonical
inversion of a concrete decode, rejection of a 3-byte encoding of 252). -/
theorem claim_C1_witness :
    BigSize.read (BigSize.write 253 ++ [7]) = (.ok 253, [7]) ∧
    [0xfd, 0x00, 0xfd] = BigSize.write 253 ++ [] ∧
    (BigSize.read (0xfd :: toBE 2 252)).1 = .error (.io .invalidData) :=
  ⟨claim_C1.1 253 (by norm_num) [7],
   claim_C1.2.1 [0xfd, 0x00, 0xfd] 253 [] (by decide) (by decide),
   claim_C1.2.2.1 252 (by norm_num)⟩

/-- C2: BigSize decode fails with the error kind `InvalidData` (as
`DecodeError::Io(InvalidData)`) on every non-canonical multi-byte
encoding — prefix `0xfd` with a 2-byte value below `0xfd`, prefix `0xfe`
with a 4-byte value below `0x10000`, prefix `0xff` with an 8-byte value
below `0x100000000` — in particular on `fd00fc`, `fe0000ffff` and
`ff00000000ffffffff`; a truncated multi-byte tail instead fails with the
distinct kind `ShortRead`. -/
theorem claim_C2 :
    (∀ bs rest : List Nat, bs.length = 2 → fromBE bs < 0xfd →
      (BigSize.read (0xfd :: (bs ++ rest))).1 = .error (.io .invalidData)) ∧
    (∀ bs rest : List Nat, bs.length = 4 → fromBE bs < 0x10000 →
      (BigSize.read (0xfe :: (bs ++ rest))).1 = .error (.io .invalidData)) ∧
    (∀ bs rest : List Nat, bs.length = 8 → fromBE bs < 0x100000000 →
      (BigSize.read (0xff :: (bs ++ rest))).1 = .error (.io .invalidData)) ∧
    (BigSize.read [0xfd, 0x00, 0xfc]).1 = .error (.io .invalidData) ∧
    (BigSize.read [0xfe, 0x00, 0x00, 0xff, 0xff]).1 = .error (.io .invalidData) ∧
    (BigSize.read [0xff, 0x00, 0x00, 0x00, 0x00, 0xff, 0xff, 0xff, 0xff]).1
      = .error (.io .invalidData) ∧
    (∀ t : List Nat, t.length < 2 → (BigSize.read (0xfd :: t)).1 = .error .shortRead) ∧
    (∀ t : List Nat, t.length < 4 → (BigSize.read (0xfe :: t)).1 = .error .shortRead) ∧
    (∀ t : List Nat, t.length < 8 → (BigSize.read (0xff :: t)).1 = .error .shortRead) ∧
    DecodeError.io .invalidData ≠ DecodeError.shortRead := by
  have hone : ∀ (b : Nat) (t : List Nat), b < 256 → readU 1 (b :: t) = (.ok b, t) := by
    intro b t hb
    have hbt : (b : Nat) :: t = [b] ++ t := rfl
    rw [hbt, readU_append 1 [b] t rfl]
    simp [fromBE]
  refine ⟨?_, ?_, ?_, by decide, by decide, by decide, ?_, ?_, ?_, by decide⟩
  · intro bs rest hlen hval
    simp [BigSize.read, hone 0xfd (bs ++ rest) (by norm_num),
      readU_append 2 bs rest hlen, hval]
  · intro bs rest hlen hval
    simp [BigSize.read, hone 0xfe (bs ++ rest) (by norm_num),
      readU_append 4 bs rest hlen, hval]
  · intro bs rest hlen hval
    simp [BigSize.read, hone 0xff (bs ++ rest) (by norm_num),
      readU_append 8 bs rest hlen, hval]
  · intro t hlen
    simp [BigSize.read, hone 0xfd t (by norm_num), readU_short 2 t hlen]
  · intro t hlen
    simp [BigSize.read, hone 0xfe t (by norm_num), readU_short 4 t hlen]
  · intro t hlen
    simp [BigSize.read, hone 0xff t (by norm_num), readU_short 8 t hlen]

/-- C2 witness: non-canonical `fd00fc` through the general clause, and
truncated `fd00` through the short-read clause. -/
theorem claim_C2_witness :
    (BigSize.read (0xfd :: ([0x00, 0xfc] ++ []))).1 = .error (.io .invalidData) ∧
    (BigSize.read (0xfd :: [0x00])).1 = .error .shortRead :=
  ⟨claim_C2.1 [0x00, 0xfc] [] (by decide) (by decide),
   claim_C2.2.2.2.2.2.2.1 [0x00] (by decide)⟩

/-- The full if-chain of `decode_tlv1` collapses to a single minimality
test against `2 ^ (8 * (n - 1))` for input length `n`. -/
theorem decode_tlv1_eq (s : List Nat) :
    decode_tlv1 s =
      if s.length = 0 then .error .shortRead
      else if s.length ≤ 8 then
        if fromBE s < 2 ^ (8 * (s.length - 1)) then .error .invalidData
        else .ok (some (.amount (fromBE s)))
      else .error .invalidData := by
  rw [decode_tlv1]
  rcases hn : s.length with _ | _ | _ | _ | _ | _ | _ | _ | _ | m
  all_goals norm_num
  all_goals split_ifs <;> first | rfl | omega

/-- C6: the Amount value decoder (type 1), on an input of `n` bytes with
`1 ≤ n ≤ 8` read as big-endian zero-extended to 64 bits, succeeds exactly
when the value is at least `2 ^ (8*(n-1))` (not representable in `n-1`
bytes) and fails `InvalidData` otherwise; an input longer than 8 bytes
fails `InvalidData`. -/
theorem claim_C6 (s : List Nat) (_hb : ∀ b ∈ s, b < 256) :
    (1 ≤ s.length → s.length ≤ 8 →
      (decode_tlv1 s = .ok (some (.amount (fromBE s))) ↔
        2 ^ (8 * (s.length - 1)) ≤ fromBE s) ∧
      (fromBE s < 2 ^ (8 * (s.length - 1)) → decode_tlv1 s = .error .invalidData)) ∧
    (8 < s.length → decode_tlv1 s = .error .invalidData) := by
  rw [decode_tlv1_eq]
  refine ⟨fun h1 h8 => ?_, fun h9 => ?_⟩
  · rw [if_neg (by omega), if_pos (by omega)]
    constructor
    · constructor
      · intro h
        by_contra hlt
        push_neg at hlt
        rw [if_pos hlt] at h
        exact absurd h (by simp)
      · intro hge
        rw [if_neg (by omega)]
    · intro hlt
      rw [if_pos hlt]
  · rw [if_neg (by omega), if_neg (by omega)]

/-- C6 witness: `[1, 0]` (value 256, minimal in 2 bytes) is accepted,
`[0, 1]` (value 1, not minimal in 2 bytes) is rejected. -/
theorem claim_C6_witness :
    decode_tlv1 [1, 0] = .ok (some (.amount (fromBE [1, 0]))) ∧
    decode_tlv1 [0, 1] = .error .invalidData :=
  ⟨((claim_C6 [1, 0] (by decide)).1 (by decide) (by decide)).1.mpr (by decide),
   ((claim_C6 [0, 1] (by decide)).1 (by decide) (by decide)).2 (by decide)⟩

/-- C8: the recognized fixed-length value decoders accept exactly one
payload length and classify deviations by direction: ShortChannelId
(type 2) takes exactly 8 bytes, CLTVExpiry (type 254) exactly 2 bytes as
a big-endian u16, PointAmount (type 3) exactly 49 bytes (33-byte
compressed public key plus two 8-byte big-endian amounts); shorter
fails `ShortRead`, longer fails `InvalidData`, and a 49-byte PointAmount
whose first 33 bytes do not parse as a curve point fails `InvalidData`. -/
theorem claim_C8 :
    (∀ s : List Nat, s.length < 8 → decode_tlv2 s = .error .shortRead) ∧
    (∀ s : List Nat, s.length = 8 → decode_tlv2 s = .ok (some (.shortChannelId s))) ∧
    (∀ s : List Nat, 8 < s.length → decode_tlv2 s = .error .invalidData) ∧
    (∀ s : List Nat, s.length < 2 → decode_tlv4 s = .error .shortRead) ∧
    (∀ s : List Nat, s.length = 2 → decode_tlv4 s = .ok (some (.cltvExpiry (fromBE s)))) ∧
    (∀ s : List Nat, 2 < s.length → decode_tlv4 s = .error .invalidData) ∧
    (∀ s : List Nat, s.length < 49 → PointAmount.new s = .error .shortRead) ∧
    (∀ s : List Nat, 49 < s.length → PointAmount.new s = .error .invalidData) ∧
    (∀ s : List Nat, s.length = 49 → PublicKey.from_slice (s.take 33) = none →
      PointAmount.new s = .error .invalidData) ∧
    (∀ (s : List Nat) (pk : PublicKey), s.length = 49 →
      PublicKey.from_slice (s.take 33) = some pk →
      PointAmount.new s =
        .ok ⟨pk, fromBE ((s.drop 33).take 8), fromBE ((s.drop 41).take 8)⟩) := by
  refine ⟨?_, ?_, ?_, ?_, ?_, ?_, ?_, ?_, ?_, ?_⟩
  · intro s h
    rw [decode_tlv2, if_neg (by omega), if_neg (by omega)]
  · intro s h
    rw [decode_tlv2, if_neg (by omega), if_pos h]
  · intro s h
    rw [decode_tlv2, if_pos (by omega)]
  · intro s h
    rw [decode_tlv4, if_pos h]
  · intro s h
    rw [decode_tlv4, if_neg (by omega), if_neg (by omega)]
  · intro s h
    rw [decode_tlv4, if_neg (by omega), if_pos (by omega)]
  · intro s h
    rw [PointAmount.new, if_pos h]
  · intro s h
    rw [PointAmount.new, if_neg (by omega), if_pos (by omega)]
  · intro s h hp
    rw [PointAmount.new, if_neg (by omega), if_neg (by omega), hp]
  · intro s pk h hp
    rw [PointAmount.new, if_neg (by omega), if_neg (by omega), hp]

/-- The x coordinate of the test-vector public key
`023da092f6980e58d2c037173180e9a465476026ee50f96695963e8efe436f54eb`. -/
def testPointX : Nat :=
  27874793597070673057900135088373096169049420529305255143161849917199474447595

/-- The 33 bytes of the test-vector compressed public key. -/
def testPointBytes : List Nat :=
  [2, 61, 160, 146, 246, 152, 14, 88, 210, 192, 55, 23, 49, 128, 233, 164, 101,
   71, 96, 38, 238, 80, 249, 102, 149, 150, 62, 142, 254, 67, 111, 84, 235]

/-- The 49-byte test-vector PointAmount payload: the key followed by the
amounts 1 and 2. -/
def testPointAmountBytes : List Nat :=
  testPointBytes ++ [0, 0, 0, 0, 0, 0, 0, 1, 0, 0, 0, 0, 0, 0, 0, 2]

set_option maxRecDepth 40000 in
/-- C8 witness: one concrete input per clause, including the valid
49-byte test-vector point. -/
theorem claim_C8_witness :
    decode_tlv2 [1, 1, 1, 1, 1, 1, 1] = .error .shortRead ∧
    decode_tlv2 [0, 0, 0, 0, 0, 0, 2, 0x26] =
      .ok (some (.shortChannelId [0, 0, 0, 0, 0, 0, 2, 0x26])) ∧
    decode_tlv2 [1, 1, 1, 1, 1, 1, 1, 1, 1] = .error .invalidData ∧
    decode_tlv4 [2] = .error .shortRead ∧
    decode_tlv4 [2, 0x26] = .ok (some (.cltvExpiry (fromBE [2, 0x26]))) ∧
    decode_tlv4 [1, 1, 1] = .error .invalidData ∧
    PointAmount.new (List.replicate 48 0) = .error .shortRead ∧
    PointAmount.new (List.replicate 50 0) = .error .invalidData ∧
    PointAmount.new (4 :: List.replicate 48 0) = .error .invalidData ∧
    PointAmount.new testPointAmountBytes =
      .ok ⟨⟨false, testPointX⟩,
        fromBE ((testPointAmountBytes.drop 33).take 8),
        fromBE ((testPointAmountBytes.drop 41).take 8)⟩ :=
  ⟨claim_C8.1 _ (by decide),
   claim_C8.2.1 _ (by decide),
   claim_C8.2.2.1 _ (by decide),
   claim_C8.2.2.2.1 _ (by decide),
   claim_C8.2.2.2.2.1 _ (by decide),
   claim_C8.2.2.2.2.2.1 _ (by decide),
   claim_C8.2.2.2.2.2.2.1 _ (by decide),
   claim_C8.2.2.2.2.2.2.2.1 _ (by decide),
   claim_C8.2.2.2.2.2.2.2.2.1 _ (by decide) (by decide),
   claim_C8.2.2.2.2.2.2.2.2.2 testPointAmountBytes ⟨false, testPointX⟩
     (by decide) (by decide)⟩

/-- Reading one TLV record from a correctly framed buffer
`BigSize(t) ‖ BigSize(len p) ‖ p ‖ rest` reduces to the value dispatch
on `t` and `p`. -/
theorem TLVRecord.read_framed (t : Nat) (p rest : List Nat)
    (ht : t < 2 ^ 64) (hp : p.length < 2 ^ 64) :
    TLVRecord.read (BigSize.write t ++ (BigSize.write p.length ++ (p ++ rest))) =
      (match dispatchValue t p with
       | .error .shortRead =>
         if p.length = 0 ∧ t = 1 then (.ok ⟨t, p.length, none⟩, rest)
         else (.error .shortRead, rest)
       | .error e => (.error e, rest)
       | .ok value => (.ok ⟨t, p.length, value⟩, rest)) := by
  simp only [TLVRecord.read,
    BigSize.read_write t ht (BigSize.write p.length ++ (p ++ rest)),
    BigSize.read_write p.length hp (p ++ rest), readExact_append]

/-- A correctly framed record with an unrecognized odd type decodes to a
retained `Unknown` record, whatever the payload. -/
theorem TLVRecord.read_unknown_odd (t : Nat) (p rest : List Nat)
    (ht : t < 2 ^ 64) (hp : p.length < 2 ^ 64) (hodd : t % 2 = 1)
    (h1 : t ≠ 1) (h3 : t ≠ 3) :
    TLVRecord.read (BigSize.write t ++ (BigSize.write p.length ++ (p ++ rest))) =
      (.ok ⟨t, p.length, some (.unknown p)⟩, rest) := by
  rw [TLVRecord.read_framed t p rest ht hp, dispatchValue, if_neg h1,
    if_neg (by omega), if_neg h3, if_neg (by omega), if_neg (by omega)]

/-- A correctly framed record with an unrecognized even type fails with
`UnknownRequiredFeature`, whatever the payload. -/
theorem TLVRecord.read_unknown_even (t : Nat) (p rest : List Nat)
    (ht : t < 2 ^ 64) (hp : p.length < 2 ^ 64) (heven : t % 2 = 0)
    (h2 : t ≠ 2) (h4 : t ≠ 254) :
    TLVRecord.read (BigSize.write t ++ (BigSize.write p.length ++ (p ++ rest))) =
      (.error .unknownRequiredFeature, rest) := by
  rw [TLVRecord.read_framed t p rest ht hp, dispatchValue, if_neg (by omega),
    if_neg h2, if_neg (by omega), if_neg h4, if_pos heven]

/-- C5: a TLV record whose type is none of the recognized ids
(1, 2, 3, 254): when the type is odd, record decode always succeeds,
whatever the payload, and the record is retained as `Unknown` with the
raw payload bytes; when the type is even (type 0 included), record
decode fails `UnknownRequiredFeature` and the whole stream decode
fails with it. -/
theorem claim_C5 :
    (∀ (t : Nat) (p rest : List Nat), t < 2 ^ 64 → p.length < 2 ^ 64 →
      t % 2 = 1 → t ≠ 1 → t ≠ 3 →
      TLVRecord.read (BigSize.write t ++ (BigSize.write p.length ++ (p ++ rest))) =
        (.ok ⟨t, p.length, some (.unknown p)⟩, rest)) ∧
    (∀ (t : Nat) (p rest : List Nat), t < 2 ^ 64 → p.length < 2 ^ 64 →
      t % 2 = 0 → t ≠ 2 → t ≠ 254 →
      TLVRecord.read (BigSize.write t ++ (BigSize.write p.length ++ (p ++ rest))) =
        (.error .unknownRequiredFeature, rest) ∧
      (TLVStream.read (BigSize.write t ++ (BigSize.write p.length ++ (p ++ rest)))).1 =
        .error .unknownRequiredFeature) := by
  constructor
  · intro t p rest ht hp hodd h1 h3
    exact TLVRecord.read_unknown_odd t p rest ht hp hodd h1 h3
  · intro t p rest ht hp heven h2 h4
    have hrec := TLVRecord.read_unknown_even t p rest ht hp heven h2 h4
    refine ⟨hrec, ?_⟩
    rw [TLVStream.read]
    simp only [TLVStream.readLoop, hrec]

/-- C5 witness: the odd clause at type `0x21` with an empty payload, the
even clause at type 0 (the stream `00 00`). -/
theorem claim_C5_witness :
    TLVRecord.read (BigSize.write 0x21 ++
        (BigSize.write ([] : List Nat).length ++ ([] ++ []))) =
      (.ok ⟨0x21, 0, some (.unknown [])⟩, []) ∧
    (TLVStream.read (BigSize.write 0 ++
        (BigSize.write ([] : List Nat).length ++ ([] ++ [])))).1 =
      .error .unknownRequiredFeature :=
  ⟨claim_C5.1 0x21 [] [] (by norm_num) (by decide) (by decide) (by decide) (by decide),
   (claim_C5.2 0 [] [] (by norm_num) (by decide) (by decide) (by decide) (by decide)).2⟩

/-- C7: the two-byte stream `01 00` (a type-1 Amount record with
declared length 0) decodes successfully; the record carries the absent
value that the code uses to represent the zero-length amount 0, and the
stream renders canonically back to `0100`. -/
theorem claim_C7 :
    TLVStream.read [0x01, 0x00] =
      (.ok [{ record_type := 1, length := 0, value := none }], []) ∧
    TLVStream.render [{ record_type := 1, length := 0, value := none }] =
      [0x01, 0x00] := by
  constructor
  · decide
  · decide

/-- The ordering invariant is preserved by the stream decode loop: a
successful decode starting from a strictly increasing accumulator ends
with a strictly increasing record sequence. -/
theorem readLoop_chain (fuel : Nat) :
    ∀ (acc : List TLVRecord) (l : List Nat) (res : List TLVRecord) (rest : List Nat),
      List.Chain' (fun a b => a.record_type < b.record_type) acc →
      TLVStream.readLoop fuel acc l = (.ok res, rest) →
      List.Chain' (fun a b => a.record_type < b.record_type) res := by
  induction fuel with
  | zero =>
    intro acc l res rest hacc h
    rw [TLVStream.readLoop] at h
    simp at h
  | succ f ih =>
    intro acc l res rest hacc h
    rw [TLVStream.readLoop] at h
    match hr : TLVRecord.read l with
    | (.error .shortRead, r) =>
      rw [hr] at h
      simp only at h
      split at h
      · simp only [Prod.mk.injEq, Except.ok.injEq] at h
        obtain ⟨h1, h2⟩ := h
        subst h1
        exact hacc
      · simp at h
    | (.error (.io k), r) => rw [hr] at h; simp at h
    | (.error .invalidData, r) => rw [hr] at h; simp at h
    | (.error .unknownRequiredFeature, r) => rw [hr] at h; simp at h
    | (.ok rec, r) =>
      rw [hr] at h
      simp only at h
      match hl : acc.getLast? with
      | some prev =>
        rw [hl] at h
        simp only at h
        split at h
        · simp at h
        · rename_i hgt
          refine ih (acc ++ [rec]) r res rest ?_ h
          rw [List.chain'_append]
          refine ⟨hacc, List.chain'_singleton _, ?_⟩
          intro x hx y hy
          rw [hl] at hx
          simp at hx hy
          subst hx
          subst hy
          omega
      | none =>
        rw [hl] at h
        simp only at h
        refine ih (acc ++ [rec]) r res rest ?_ h
        have hnil : acc = [] := by
          cases acc with
          | nil => rfl
          | cons a t => simp [List.getLast?] at hl
        subst hnil
        simp

/-- C4: the stream decoder enforces strict ascending type ordering
incrementally — whenever the last accepted record type is not exceeded
by the next decoded record type, the whole decode fails `InvalidData` —
and consequently every successfully decoded stream has strictly
increasing record types. -/
theorem claim_C4 :
    (∀ (fuel : Nat) (acc : List TLVRecord) (l : List Nat) (prev r : TLVRecord)
        (rest : List Nat),
      acc.getLast? = some prev → TLVRecord.read l = (.ok r, rest) →
      r.record_type ≤ prev.record_type →
      TLVStream.readLoop (fuel + 1) acc l = (.error .invalidData, rest)) ∧
    (∀ (l : List Nat) (res : List TLVRecord) (rest : List Nat),
      TLVStream.read l = (.ok res, rest) →
      List.Chain' (· < ·) (res.map TLVRecord.record_type)) := by
  constructor
  · intro fuel acc l prev r rest hl hr hle
    simp only [TLVStream.readLoop, hr, hl]
    rw [if_pos hle]
  · intro l res rest h
    rw [TLVStream.read] at h
    rw [List.chain'_map]
    exact readLoop_chain (l.length + 1) [] l res rest (by simp) h

/-- C4 witness: the duplicate pair of type-2 records from the test
vectors fails `InvalidData` through the incremental clause, and the
valid two-record stream `02 08 ... fd00fe 02 ...` is strictly
increasing. -/
theorem claim_C4_witness :
    TLVStream.readLoop (0 + 1)
        [{ record_type := 2, length := 8,
           value := some (.shortChannelId [0, 0, 0, 0, 0, 0, 2, 0x31]) }]
        [0x02, 0x08, 0, 0, 0, 0, 0, 0, 4, 0x51] =
      (.error .invalidData, []) ∧
    List.Chain' (· < ·)
      ([{ record_type := 2, length := 8,
          value := some (.shortChannelId [0, 0, 0, 0, 0, 0, 2, 0x26]) },
        { record_type := 254, length := 2,
          value := some (.cltvExpiry 550) }].map TLVRecord.record_type) :=
  ⟨claim_C4.1 0
      [{ record_type := 2, length := 8,
         value := some (.shortChannelId [0, 0, 0, 0, 0, 0, 2, 0x31]) }]
      [0x02, 0x08, 0, 0, 0, 0, 0, 0, 4, 0x51]
      { record_type := 2, length := 8,
        value := some (.shortChannelId [0, 0, 0, 0, 0, 0, 2, 0x31]) }
      { record_type := 2, length := 8,
        value := some (.shortChannelId [0, 0, 0, 0, 0, 0, 4, 0x51]) } []
      (by decide) (by decide) (by decide),
   claim_C4.2 [0x02, 0x08, 0, 0, 0, 0, 0, 0, 2, 0x26, 0xfd, 0x00, 0xfe, 0x02, 0x02, 0x26]
      [{ record_type := 2, length := 8,
         value := some (.shortChannelId [0, 0, 0, 0, 0, 0, 2, 0x26]) },
       { record_type := 254, length := 2,
         value := some (.cltvExpiry 550) }] [] (by decide)⟩

/-- C3: TLV stream decode separates clean EOF from truncation by the
bytes consumed in the current record attempt: empty input succeeds with
zero records; a record attempt failing `ShortRead` with nothing consumed
ends the stream successfully with the records accumulated so far; a
record attempt failing `ShortRead` after consuming at least one byte
(such as the lone prefix bytes `fd`, `fe`, `ff`) fails the whole stream
with `ShortRead`. -/
theorem claim_C3 :
    TLVStream.read [] = (.ok [], []) ∧
    (TLVStream.read [0xfd]).1 = .error .shortRead ∧
    (TLVStream.read [0xfe]).1 = .error .shortRead ∧
    (TLVStream.read [0xff]).1 = .error .shortRead ∧
    (∀ (fuel : Nat) (acc : List TLVRecord) (l rest : List Nat),
      TLVRecord.read l = (.error .shortRead, rest) → rest.length = l.length →
      TLVStream.readLoop (fuel + 1) acc l = (.ok acc, rest)) ∧
    (∀ (fuel : Nat) (acc : List TLVRecord) (l rest : List Nat),
      TLVRecord.read l = (.error .shortRead, rest) → rest.length ≠ l.length →
      TLVStream.readLoop (fuel + 1) acc l = (.error .shortRead, rest)) := by
  refine ⟨by decide, by decide, by decide, by decide, ?_, ?_⟩
  · intro fuel acc l rest hr hlen
    simp only [TLVStream.readLoop, hr]
    rw [if_pos hlen]
  · intro fuel acc l rest hr hlen
    simp only [TLVStream.readLoop, hr]
    rw [if_neg hlen]

/-- C3 witness: the zero-consumption clause at empty input and the
consuming clause at the lone prefix byte `fd`. -/
theorem claim_C3_witness :
    TLVStream.readLoop (0 + 1) [] [] = (.ok [], []) ∧
    TLVStream.readLoop (0 + 1) [] [0xfd] = (.error .shortRead, []) :=
  ⟨claim_C3.2.2.2.2.1 0 [] [] [] (by decide) (by decide),
   claim_C3.2.2.2.2.2 0 [] [0xfd] [] (by decide) (by decide)⟩

/-- C10: the ordering check also covers retained Unknown records of
unrecognized odd type: whenever such a record decodes successfully and
the following record decodes with a type not above it, the stream
decode fails `InvalidData` — in particular on the byte streams
`1f 00 0f 01 2a` and `1f 00 1f 01 2a`. -/
theorem claim_C10 :
    (∀ (t1 : Nat) (p1 l2 : List Nat) (r2 : TLVRecord) (rest2 : List Nat),
      t1 < 2 ^ 64 → p1.length < 2 ^ 64 → t1 % 2 = 1 → t1 ≠ 1 → t1 ≠ 3 →
      TLVRecord.read l2 = (.ok r2, rest2) → r2.record_type ≤ t1 →
      (TLVStream.read (BigSize.write t1 ++ (BigSize.write p1.length ++ (p1 ++ l2)))).1 =
        .error .invalidData) ∧
    (TLVStream.read [0x1f, 0x00, 0x0f, 0x01, 0x2a]).1 = .error .invalidData ∧
    (TLVStream.read [0x1f, 0x00, 0x1f, 0x01, 0x2a]).1 = .error .invalidData := by
  refine ⟨?_, by decide, by decide⟩
  intro t1 p1 l2 r2 rest2 ht hp hodd h1 h3 hr2 hle
  have hrec1 := TLVRecord.read_unknown_odd t1 p1 l2 ht hp hodd h1 h3
  rw [TLVStream.read]
  simp only [TLVStream.readLoop, hrec1, List.nil_append, List.getLast?_nil]
  obtain ⟨f, hf⟩ : ∃ f,
      (BigSize.write t1 ++ (BigSize.write p1.length ++ (p1 ++ l2))).length = f + 1 := by
    have hwl := BigSize.write_length_pos t1
    refine ⟨(BigSize.write t1 ++ (BigSize.write p1.length ++ (p1 ++ l2))).length - 1, ?_⟩
    simp only [List.length_append]
    omega
  rw [hf]
  simp only [TLVStream.readLoop, hr2, List.getLast?_singleton]
  rw [if_pos hle]

/-- C10 witness: the general clause applied to the stream
`1f 00` followed by the unknown-odd record `0f 01 2a`. -/
theorem claim_C10_witness :
    (TLVStream.read (BigSize.write 0x1f ++
        (BigSize.write ([] : List Nat).length ++ ([] ++ [0x0f, 0x01, 0x2a])))).1 =
      .error .invalidData :=
  claim_C10.1 0x1f [] [0x0f, 0x01, 0x2a]
    ⟨0x0f, 1, some (.unknown [0x2a])⟩ []
    (by norm_num) (by decide) (by decide) (by decide) (by decide)
    (by decide) (by decide)

end RustBolts
